import Mathlib

/-!
Shallow embedding of `src/metrics.py` (repository PraWek/BusinessTelemetry):
the functions `compute_funnel`, `compute_sankey_transitions` and
`compute_conversion_daily`, together with theorems settling the claims
about them.

Modelling conventions:
* A DataFrame row of the event table is an `Event`.  The `timestamp`
  column is modelled as `Option Nat`: `some t` is a successfully parsed
  instant (an epoch-second count), `none` is the NaT sentinel that
  `pd.to_datetime(..., errors="coerce")` produces for an unparseable
  value.  In `compute_conversion_daily` the source calls `pd.to_datetime`
  WITHOUT `errors="coerce"`, which raises on an unparseable value; that
  strict parse is modelled by `parseAllTs`, which fails (returns
  `Except.error`) exactly when some row's timestamp is `none`.
* `df.sort_values([c1, c2])` with a column list is pandas' stable lexsort
  with NaT placed last; any stable sort by the same key computes the same
  list, so it is embedded as `List.insertionSort` (stable) over the key
  order `eventLe` (sessionid, then timestamp with `none` last).
* `df.groupby(k)` iterates groups in sorted key order, each group keeping
  the current row order; on a session-sorted table the group of `sid` is
  `(sortEvents evs).filter (·.sessionid = sid)`.
* `Series.nunique()` is `(·.map key).dedup.length`.
* pandas float division of non-negative integer counts is modelled by
  `PFloat` / `ratioDiv`: `x / 0 = inf` for `x > 0`, `0 / 0 = nan`,
  otherwise an exact rational.
-/

/-- One row of the cleaned event table (columns used by the metrics
module).  `timestamp = none` models a NaT / unparseable value. -/
structure Event where
  userid : String
  sessionid : String
  timestamp : Option Nat
  action : String
deriving DecidableEq

/-- Timestamp key order used by `sort_values`: NaT (`none`) sorts last
(`na_position="last"`). -/
def tsLe : Option Nat → Option Nat → Bool
  | _, none => true
  | none, some _ => false
  | some a, some b => decide (a ≤ b)

/-- Lexicographic code-point comparison of two strings (as Python / numpy
compare the id strings when sorting), on their character lists. -/
def strLeB : List Char → List Char → Bool
  | [], _ => true
  | _ :: _, [] => false
  | c1 :: r1, c2 :: r2 =>
    if c1 < c2 then true
    else if c2 < c1 then false
    else strLeB r1 r2

/-- Comparison `s1 ≤ s2` in the string order sorting and grouping use. -/
def strLe (s1 s2 : String) : Bool := strLeB s1.data s2.data

/-- Relation form of `strLe`, decidable. -/
def StrLE (s1 s2 : String) : Prop := strLe s1 s2 = true

instance : DecidableRel StrLE := fun _ _ => inferInstanceAs (Decidable (_ = true))

theorem strLeB_total (l1 : List Char) : ∀ l2, strLeB l1 l2 = true ∨ strLeB l2 l1 = true := by
  induction l1 with
  | nil => intro l2; left; cases l2 <;> rfl
  | cons c1 r1 ih =>
    intro l2
    cases l2 with
    | nil => right; rfl
    | cons c2 r2 =>
      by_cases h1 : c1 < c2
      · left; simp [strLeB, h1]
      · by_cases h2 : c2 < c1
        · right; simp [strLeB, h2]
        · rcases ih r2 with h | h
          · left; simp [strLeB, h1, h2, h]
          · right; simp [strLeB, h1, h2, h]

theorem strLeB_trans {l1 l2 l3 : List Char} :
    strLeB l1 l2 = true → strLeB l2 l3 = true → strLeB l1 l3 = true := by
  induction l1 generalizing l2 l3 with
  | nil => intro _ _; cases l3 <;> rfl
  | cons c1 r1 ih =>
    intro h12 h23
    cases l2 with
    | nil => simp [strLeB] at h12
    | cons c2 r2 =>
      cases l3 with
      | nil => simp [strLeB] at h23
      | cons c3 r3 =>
        by_cases ha : c1 < c2
        · by_cases hb : c2 < c3
          · simp [strLeB, lt_trans ha hb]
          · by_cases hc : c3 < c2
            · simp [strLeB, hb, hc] at h23
            · have : c2 = c3 := le_antisymm (not_lt.mp hc) (not_lt.mp hb)
              simp [strLeB, this ▸ ha]
        · by_cases hd : c2 < c1
          · simp [strLeB, ha, hd] at h12
          · have he : c1 = c2 := le_antisymm (not_lt.mp hd) (not_lt.mp ha)
            subst he
            by_cases hb : c1 < c3
            · simp [strLeB, hb]
            · by_cases hc : c3 < c1
              · simp [strLeB, hb, hc] at h23
              · simp [strLeB, ha, hd] at h12
                simp [strLeB, hb, hc] at h23 ⊢
                exact ih h12 h23

theorem strLeB_antisymm {l1 l2 : List Char} :
    strLeB l1 l2 = true → strLeB l2 l1 = true → l1 = l2 := by
  induction l1 generalizing l2 with
  | nil =>
    intro _ h21
    cases l2 with
    | nil => rfl
    | cons c2 r2 => simp [strLeB] at h21
  | cons c1 r1 ih =>
    intro h12 h21
    cases l2 with
    | nil => simp [strLeB] at h12
    | cons c2 r2 =>
      by_cases ha : c1 < c2
      · simp [strLeB, asymm ha, ha] at h21
      · by_cases hb : c2 < c1
        · simp [strLeB, ha, hb] at h12
        · have he : c1 = c2 := le_antisymm (not_lt.mp hb) (not_lt.mp ha)
          subst he
          simp [strLeB, ha] at h12 h21
          rw [ih h12 h21]

theorem strLe_total (s1 s2 : String) : strLe s1 s2 = true ∨ strLe s2 s1 = true :=
  strLeB_total s1.data s2.data

theorem strLe_trans {s1 s2 s3 : String} (h1 : strLe s1 s2 = true) (h2 : strLe s2 s3 = true) :
    strLe s1 s3 = true :=
  strLeB_trans h1 h2

theorem strLe_antisymm {s1 s2 : String} (h1 : strLe s1 s2 = true) (h2 : strLe s2 s1 = true) :
    s1 = s2 := by
  cases s1; cases s2
  exact congrArg String.mk (strLeB_antisymm h1 h2)

/-- Row key order of `df.sort_values([session_col, ts_col])`:
sessionid first, then timestamp with NaT last (on two rows of different
sessions only the sessionid comparison is consulted). -/
def eventLe (e1 e2 : Event) : Bool :=
  if e1.sessionid = e2.sessionid then tsLe e1.timestamp e2.timestamp
  else strLe e1.sessionid e2.sessionid

/-- Relation form of `eventLe`, so that a stable sort can be taken
with respect to it. -/
def EventLE (e1 e2 : Event) : Prop := eventLe e1 e2 = true

instance : DecidableRel EventLE := fun _ _ => inferInstanceAs (Decidable (_ = true))

theorem tsLe_total (a b : Option Nat) : tsLe a b = true ∨ tsLe b a = true := by
  cases a <;> cases b <;> simp [tsLe] <;> omega

theorem tsLe_trans {a b c : Option Nat} (h1 : tsLe a b = true) (h2 : tsLe b c = true) :
    tsLe a c = true := by
  cases a <;> cases b <;> cases c <;> simp_all [tsLe] <;> omega

instance : IsTotal Event EventLE := by
  constructor
  intro a b
  unfold EventLE eventLe
  by_cases h : a.sessionid = b.sessionid
  · simp [h]
    exact tsLe_total _ _
  · simp [h, Ne.symm h]
    exact strLe_total _ _

instance : IsTrans Event EventLE := by
  constructor
  intro a b c hab hbc
  unfold EventLE eventLe at *
  by_cases h1 : a.sessionid = b.sessionid <;> by_cases h2 : b.sessionid = c.sessionid
  · rw [if_pos h1] at hab
    rw [if_pos h2] at hbc
    rw [if_pos (h1.trans h2)]
    exact tsLe_trans hab hbc
  · rw [if_neg h2] at hbc
    rw [if_neg (h1 ▸ h2 : a.sessionid ≠ c.sessionid), h1]
    exact hbc
  · rw [if_neg h1] at hab
    rw [if_neg (fun hac => h1 (hac.trans h2.symm)), ← h2]
    exact hab
  · rw [if_neg h1] at hab
    rw [if_neg h2] at hbc
    by_cases h3 : a.sessionid = c.sessionid
    · exact absurd (strLe_antisymm hab (h3.symm ▸ hbc)) h1
    · rw [if_neg h3]
      exact strLe_trans hab hbc

/-- The sort `df.sort_values([session_col, ts_col])` (stable, NaT last). -/
def sortEvents (evs : List Event) : List Event :=
  List.insertionSort EventLE evs

/-- The distinct session ids in the order `groupby(session_col)` visits
them (sorted ascending). -/
def groupKeys (evs : List Event) : List String :=
  List.insertionSort StrLE (evs.map (·.sessionid)).dedup

/-- The rows of one `groupby(session_col)` group of the sorted table,
i.e. the session's events in timestamp order (NaT rows last). -/
def sessionEvents (evs : List Event) (sid : String) : List Event :=
  (sortEvents evs).filter (fun e => decide (e.sessionid = sid))

/-- The value `sgrp[userid_col].iloc[0]`: the user id of the first row of the
session group. -/
def sessionUser (evs : List Event) (sid : String) : String :=
  ((sessionEvents evs sid).map (·.userid)).headD ""

/-- Python `actions.index(step, pos)`: the first index `i ≥ pos` with
`actions[i] = step`, or `none` (the `ValueError` case). -/
def indexFrom (actions : List String) (step : String) (pos : Nat) : Option Nat :=
  match (actions.drop pos).findIdx? (fun a => decide (a = step)) with
  | some j => some (pos + j)
  | none => none

/-- The `for step in steps` loop body of `compute_funnel`: greedy forward
cursor at position `pos`; stops at the first step not found from `pos`
onward. -/
def funnelGo (actions : List String) (steps : List String) (pos : Nat) : List String :=
  match steps with
  | [] => []
  | step :: rest =>
    match indexFrom actions step pos with
    | some i => step :: funnelGo actions rest (i + 1)
    | none => []

/-- The per-session reached list of `compute_funnel` (cursor starts at 0). -/
def reachedSteps (actions : List String) (steps : List String) : List String :=
  funnelGo actions steps 0

/-- One element of the `rows` list accumulated by `compute_funnel`. -/
structure ReachedRow where
  sessionid : String
  userid : String
  step : String
deriving DecidableEq

/-- The reached list of one session: the matcher run over the session
group's action column (`actions = list(sgrp["action"])`). -/
def reachedSet (evs : List Event) (steps : List String) (sid : String) : List String :=
  reachedSteps ((sessionEvents evs sid).map (·.action)) steps

/-- The `rows` list of `compute_funnel`: for each session (in groupby
order) one entry per reached step. -/
def reachedRows (evs : List Event) (steps : List String) : List ReachedRow :=
  (groupKeys evs).flatMap (fun sid =>
    (reachedSet evs steps sid).map
      (fun st => { sessionid := sid, userid := sessionUser evs sid, step := st }))

/-- One row of the funnel output table. -/
structure FunnelRow where
  step : String
  sessions_reached : Nat
  unique_users_reached : Nat
deriving DecidableEq

/-- Python `steps.index(s) if s in steps else -1` (the `step_number` column). -/
def stepNumber (steps : List String) (s : String) : Int :=
  if s ∈ steps then (List.indexOf s steps : Int) else -1

/-- Key order of the final `sort_values("step_number")`. -/
def funnelRowLE (steps : List String) (r1 r2 : FunnelRow) : Prop :=
  stepNumber steps r1.step ≤ stepNumber steps r2.step

instance (steps : List String) : DecidableRel (funnelRowLE steps) :=
  fun _ _ => inferInstanceAs (Decidable (_ ≤ _))

instance (steps : List String) : IsTotal FunnelRow (funnelRowLE steps) :=
  ⟨fun a b => le_total _ _⟩

instance (steps : List String) : IsTrans FunnelRow (funnelRowLE steps) :=
  ⟨fun _ _ _ => le_trans⟩

/-- One aggregated row of `reached_df.groupby("step").agg(...)`:
`nunique` of session ids and of user ids among the rows of that step. -/
def funnelAggRow (evs : List Event) (steps : List String) (st : String) : FunnelRow :=
  let sub := (reachedRows evs steps).filter (fun r => decide (r.step = st))
  { step := st,
    sessions_reached := (sub.map (·.sessionid)).dedup.length,
    unique_users_reached := (sub.map (·.userid)).dedup.length }

/-- The function `compute_funnel`: empty-rows guard, groupby-step aggregation (keys in
sorted order) and the final re-sort by `step_number`. -/
def computeFunnel (evs : List Event) (steps : List String) : List FunnelRow :=
  if reachedRows evs steps = [] then []
  else
    List.insertionSort (funnelRowLE steps)
      ((List.insertionSort StrLE ((reachedRows evs steps).map (·.step)).dedup).map
        (funnelAggRow evs steps))

/-- The distinct sessions whose reached set contains `st` (claim C8's
vocabulary). -/
def reachingSessions (evs : List Event) (steps : List String) (st : String) : List String :=
  (groupKeys evs).filter (fun sid => decide (st ∈ reachedSet evs steps sid))

/-- One output row as claim C8 words it: the count of distinct sessions
reaching the step, and the count of distinct users of those sessions. -/
def specRow (evs : List Event) (steps : List String) (st : String) : FunnelRow :=
  { step := st,
    sessions_reached := (reachingSessions evs steps st).length,
    unique_users_reached := ((reachingSessions evs steps st).map (sessionUser evs)).dedup.length }

/-- Refinement counterpart of `computeFunnel`, written from claim C8's
words: one row per Step List step occurring in at least one reached set,
in Step List order, with claim C8's counts. -/
def computeFunnelSpec (evs : List Event) (steps : List String) : List FunnelRow :=
  (steps.filter (fun st => decide (reachingSessions evs steps st ≠ []))).map
    (specRow evs steps)

/-- One row of the sankey output table. -/
structure SankeyRow where
  action : String
  next_action : String
  users : Nat
deriving DecidableEq

/-- One surviving row after the mapping/notna filters of
`compute_sankey_transitions`. -/
structure Transition where
  userid : String
  action : String
  next_action : String
  current_step : Nat
  next_step : Nat
deriving DecidableEq

/-- The column `groupby(session_col)["action"].shift(-1)` on the session-sorted
table: each row paired with the action of the next row of the same
session (`none` = the NaN a group's last row receives). -/
def withNext : List Event → List (Event × Option String)
  | [] => []
  | e1 :: rest =>
    (e1,
      match rest with
      | [] => none
      | e2 :: _ => if e2.sessionid = e1.sessionid then some e2.action else none) ::
      withNext rest

/-- The `current_step` / `next_step` mapping through `step_map` and the
drop of rows where either mapping (or the shifted action) is NaN. -/
def mappedTransitions (evs : List Event) (stepMap : List (String × Nat)) : List Transition :=
  (withNext (sortEvents evs)).filterMap (fun p =>
    match p.2 with
    | none => none
    | some na =>
      match List.lookup p.1.action stepMap, List.lookup na stepMap with
      | some cs, some ns =>
          some { userid := p.1.userid, action := p.1.action, next_action := na,
                 current_step := cs, next_step := ns }
      | _, _ => none)

/-- Lexicographic order on `(action, next_action)` used by the final
`sort_values(["action", "next_action"])` (on two pairs with distinct
first components only the first comparison is consulted). -/
def pairLe (p1 p2 : String × String) : Bool :=
  if p1.1 = p2.1 then strLe p1.2 p2.2 else strLe p1.1 p2.1

/-- Relation form of `pairLe`, decidable. -/
def PairLE (p1 p2 : String × String) : Prop := pairLe p1 p2 = true

instance : DecidableRel PairLE :=
  fun _ _ => inferInstanceAs (Decidable (_ = true))

/-- The function `compute_sankey_transitions`: adjacent in-session pairs, step-map
filter, optional forward-or-equal filter, distinct-user count per
`(action, next_action)`, output sorted lexicographically. -/
def computeSankey (evs : List Event) (stepMap : List (String × Nat))
    (requireStepIncrease : Bool) : List SankeyRow :=
  let trans := mappedTransitions evs stepMap
  let kept :=
    if requireStepIncrease then trans.filter (fun t => decide (t.current_step ≤ t.next_step))
    else trans
  let keys := List.insertionSort PairLE (kept.map (fun t => (t.action, t.next_action))).dedup
  keys.map (fun k =>
    { action := k.1, next_action := k.2,
      users := ((kept.filter (fun t => decide (t.action = k.1 ∧ t.next_action = k.2))).map
        (·.userid)).dedup.length })

/-! ### Daily conversion (`compute_conversion_daily`) -/

/-- A pandas float value arising from dividing non-negative integer
counts: `nan` (0/0), `inf` (x/0 with x > 0) or a finite rational. -/
inductive PFloat where
  | nan : PFloat
  | inf : PFloat
  | val : ℚ → PFloat
deriving DecidableEq

/-- numpy/pandas float division of two non-negative integer counts
(`res[b] / res[a]`): division by zero yields `inf` (positive numerator)
or `nan` (zero numerator), never an exception. -/
def ratioDiv (num den : Nat) : PFloat :=
  if den = 0 then (if num = 0 then PFloat.nan else PFloat.inf)
  else PFloat.val ((num : ℚ) / (den : ℚ))

/-- An event row after `compute_conversion_daily`'s strict timestamp
parse succeeded (only the columns that function uses). -/
structure CEvent where
  userid : String
  ts : Nat
  action : String
deriving DecidableEq

/-- Line 201, `pd.to_datetime(df_local[ts_col])` WITHOUT `errors="coerce"` (line
201): raises — `Except.error` — as soon as any value is unparseable. -/
def parseAllTs : List Event → Except String (List CEvent)
  | [] => Except.ok []
  | e :: rest =>
    match e.timestamp with
    | none => Except.error "could not parse timestamp"
    | some t =>
      (parseAllTs rest).map (fun l => { userid := e.userid, ts := t, action := e.action } :: l)

def secondsPerDay : Nat := 86400

/-- Date extraction `.dt.date`: the calendar day of an instant. -/
def dayOf (t : Nat) : Nat := t / secondsPerDay

/-- The frame `df_f = df_local[df_local["action"].isin(steps)]`. -/
def dfF (ces : List CEvent) (steps : List String) : List CEvent :=
  ces.filter (fun e => decide (e.action ∈ steps))

/-- Timestamp order used by `df_first.sort_values(ts_col)` (stable). -/
def cevLe (a b : CEvent) : Prop := a.ts ≤ b.ts

instance : DecidableRel cevLe := fun _ _ => inferInstanceAs (Decidable (_ ≤ _))

instance : IsTotal CEvent cevLe := ⟨fun a b => Nat.le_total _ _⟩

instance : IsTrans CEvent cevLe := ⟨fun _ _ _ => Nat.le_trans⟩

/-- The frame `df_first`: the first-step events, sorted by timestamp. -/
def dfFirst (ces : List CEvent) (s0 : String) (rest : List String) : List CEvent :=
  List.insertionSort cevLe ((dfF ces (s0 :: rest)).filter (fun e => decide (e.action = s0)))

/-- The row `groupby("userid").first()` picks for user `u` in `df_first`
(all timestamps are parsed here, so `first()` is the first row of the
group): the user's earliest first-step event, `none` when the user never
performs the first step. -/
def firstRowOf (ces : List CEvent) (s0 : String) (rest : List String) (u : String) :
    Option CEvent :=
  (dfFirst ces s0 rest).find? (fun e => decide (e.userid = u))

/-- The `first_ts` column of the cohort table. -/
def firstTs (ces : List CEvent) (s0 : String) (rest : List String) (u : String) : Option Nat :=
  (firstRowOf ces s0 rest u).map (·.ts)

/-- The `cohort_date` column of the cohort table (`first()` of the date
column over the same timestamp-sorted frame, hence the day of the same
row that `first_ts` comes from). -/
def firstDay (ces : List CEvent) (s0 : String) (rest : List String) (u : String) : Option Nat :=
  (firstRowOf ces s0 rest u).map (fun e => dayOf e.ts)

/-- One row of `df_join`: a funnel event of a cohorted user with the
user's `first_ts` and `cohort_date` merged on. -/
structure JoinedRow where
  ev : CEvent
  first_ts : Nat
  cohort_date : Nat
deriving DecidableEq

/-- The merge `df_join = df_f.merge(cohort, on="userid")` — the inner merge keeps
exactly the events whose user has a cohort row. -/
def dfJoin0 (ces : List CEvent) (s0 : String) (rest : List String) : List JoinedRow :=
  (dfF ces (s0 :: rest)).filterMap (fun e =>
    match firstRowOf ces s0 rest e.userid with
    | some e0 => some { ev := e, first_ts := e0.ts, cohort_date := dayOf e0.ts }
    | none => none)

/-- The filter `df_join = df_join[df_join[ts_col] >= df_join["first_ts"]]`. -/
def dfJoin (ces : List CEvent) (s0 : String) (rest : List String) : List JoinedRow :=
  (dfJoin0 ces s0 rest).filter (fun x => decide (x.first_ts ≤ x.ev.ts))

/-- The distinct cohort dates, in the sorted order the
`groupby(["cohort_date", "action"]).unstack()` index has. -/
def cohortDates (ces : List CEvent) (s0 : String) (rest : List String) : List Nat :=
  List.insertionSort (· ≤ ·) ((dfJoin ces s0 rest).map (·.cohort_date)).dedup

/-- The `(cohort_date, action)` cell of the unstacked table: distinct
users of cohort date `d` with a retained event of action `s` (0 when the
combination is absent, `fill_value=0`). -/
def stepCount (ces : List CEvent) (s0 : String) (rest : List String) (d : Nat) (s : String) :
    Nat :=
  (((dfJoin ces s0 rest).filter (fun x => decide (x.cohort_date = d ∧ x.ev.action = s))).map
    (fun x => x.ev.userid)).dedup.length

/-- One output row of `compute_conversion_daily`: the per-step unique
user counts (in Step List order), the adjacent `cr_<a>_to_<b>` ratios
(in `zip(steps[:-1], steps[1:])` order) and `cr_full`. -/
structure DailyRow where
  cohort_date : Nat
  stepCounts : List Nat
  crs : List PFloat
  cr_full : PFloat
deriving DecidableEq

def mkDailyRow (ces : List CEvent) (s0 : String) (rest : List String) (d : Nat) : DailyRow :=
  { cohort_date := d,
    stepCounts := (s0 :: rest).map (stepCount ces s0 rest d),
    crs := (List.zip (s0 :: rest) rest).map (fun ab =>
      ratioDiv (stepCount ces s0 rest d ab.2) (stepCount ces s0 rest d ab.1)),
    cr_full :=
      ratioDiv (stepCount ces s0 rest d (rest.getLastD s0)) (stepCount ces s0 rest d s0) }

/-- The data rows of `compute_conversion_daily` after a successful parse,
for the non-empty step list `s0 :: rest`. -/
def conversionRows (ces : List CEvent) (s0 : String) (rest : List String) : List DailyRow :=
  (cohortDates ces s0 rest).map (mkDailyRow ces s0 rest)

/-- The function `compute_conversion_daily`: strict timestamp parse (raises on an
unparseable value), `steps[0]` (raises on an empty step list), then the
cohort computation. -/
def computeConversionDaily (evs : List Event) (steps : List String) :
    Except String (List DailyRow) :=
  (parseAllTs evs).bind (fun ces =>
    match steps with
    | [] => Except.error "IndexError: step list is empty"
    | s0 :: rest => Except.ok (conversionRows ces s0 rest))

/-! ### Claims C1 and C2 -/

/-- C1: `compute_funnel` matches each session by a single greedy forward
cursor: each Step List entry is looked up at index ≥ `pos`; on success the
step is recorded and `pos` moves past the match; at the first failure
matching stops and no later Step List entry is checked.  For session
actions `[search, cart, product, checkout]` and Step List
`[search, product, cart, checkout]` the reached set is exactly
`{search, product}`: `cart` is not found from position 3 onward, and
`checkout` — although it does occur at index 3, which the cursor could
still see — is never attempted. -/
theorem funnel_greedy_cursor :
    reachedSteps ["search", "cart", "product", "checkout"]
        ["search", "product", "cart", "checkout"] = ["search", "product"] ∧
    indexFrom ["search", "cart", "product", "checkout"] "cart" 3 = none ∧
    indexFrom ["search", "cart", "product", "checkout"] "checkout" 3 = some 3 := by
  decide

theorem funnelGo_take (actions : List String) (steps : List String) :
    ∀ pos, ∃ n, funnelGo actions steps pos = steps.take n := by
  induction steps with
  | nil => exact fun pos => ⟨0, rfl⟩
  | cons st rest ih =>
    intro pos
    unfold funnelGo
    cases h : indexFrom actions st pos with
    | none => exact ⟨0, by simp⟩
    | some i =>
      obtain ⟨n, hn⟩ := ih (i + 1)
      exact ⟨n + 1, by simp [hn]⟩

theorem funnelGo_append (actions l1 l2 : List String) :
    ∀ pos, ∃ m, funnelGo actions (l1 ++ l2) pos = funnelGo actions l1 pos ++ m := by
  induction l1 with
  | nil => exact fun pos => ⟨funnelGo actions l2 pos, rfl⟩
  | cons st rest ih =>
    intro pos
    rw [List.cons_append]
    unfold funnelGo
    cases h : indexFrom actions st pos with
    | none => exact ⟨[], rfl⟩
    | some i =>
      obtain ⟨m, hm⟩ := ih (i + 1)
      exact ⟨m, by simp [hm]⟩

/-- C2: the reached list of a session is always a prefix of the Step
List (so a step at position `k` being reached forces all earlier steps to
be reached, and nothing is removed once recorded), and the reached-set
size is non-decreasing as the Step List prefix grows. -/
theorem funnel_reached_is_step_list_front (actions steps : List String) :
    (∃ n, reachedSteps actions steps = steps.take n) ∧
    ∀ k, (reachedSteps actions (steps.take k)).length ≤
        (reachedSteps actions (steps.take (k + 1))).length := by
  constructor
  · exact funnelGo_take actions steps 0
  · intro k
    have hsplit : steps.take (k + 1) = steps.take k ++ (steps.drop k).take 1 :=
      List.take_add steps k 1
    obtain ⟨m, hm⟩ := funnelGo_append actions (steps.take k) ((steps.drop k).take 1) 0
    rw [hsplit]
    unfold reachedSteps
    rw [hm]
    simp

/-! ### Claim C3 -/

/-- C3: `compute_sankey_transitions` records exactly the immediately
adjacent in-session pairs of the timestamp-sorted table, drops pairs with
an unmapped side, drops backward pairs when `require_step_increase` is
on, counts distinct users per surviving pair and sorts the output
lexicographically.  First conjunct: the claim's own example — session
`[b, a, c]` yields `(b, a)` dropped and `(a, c)` kept.  Second conjunct:
`u1` performing `a → c` in two different sessions is counted once per
pair, the unmapped action `x` kills its pair, the backward pair `(c, b)`
is dropped, no pair spans two sessions, and rows come out sorted by
`(action, next_action)`. -/
theorem sankey_adjacent_transitions :
    computeSankey
        [⟨"u1", "s1", some 0, "b"⟩, ⟨"u1", "s1", some 1, "a"⟩, ⟨"u1", "s1", some 2, "c"⟩]
        [("a", 0), ("b", 1), ("c", 2)] true =
      [{ action := "a", next_action := "c", users := 1 }] ∧
    computeSankey
        [⟨"u1", "s1", some 0, "a"⟩, ⟨"u1", "s1", some 1, "c"⟩,
         ⟨"u1", "s2", some 10, "a"⟩, ⟨"u1", "s2", some 11, "c"⟩,
         ⟨"u2", "s3", some 5, "a"⟩, ⟨"u2", "s3", some 6, "c"⟩,
         ⟨"u2", "s3", some 7, "b"⟩, ⟨"u2", "s3", some 8, "c"⟩, ⟨"u2", "s3", some 9, "x"⟩]
        [("a", 0), ("b", 1), ("c", 2)] true =
      [{ action := "a", next_action := "c", users := 2 },
       { action := "b", next_action := "c", users := 1 }] := by
  decide

/-! ### Claim C7 -/

/-- C7: on an input table with zero rows (but the full column set, which
the `Event` row type fixes), each of the three aggregators returns a
zero-row result of its output row type instead of raising; the daily
conversion needs a non-empty step list (`steps[0]` is evaluated even on
empty input). -/
theorem empty_input_stability (steps : List String) (stepMap : List (String × Nat))
    (req : Bool) (s0 : String) (rest : List String) :
    computeFunnel [] steps = [] ∧
    computeSankey [] stepMap req = [] ∧
    computeConversionDaily [] (s0 :: rest) = Except.ok [] := by
  refine ⟨rfl, ?_, rfl⟩
  cases req <;> rfl

/-! ### Claim C10 -/

/-- C10: `compute_funnel` removes no event for having a NaT timestamp:
each session group is a permutation of all the session's input events
(first conjunct), and concretely a session whose `cart` event has an
unparseable timestamp still reaches `cart` — the NaT row is sorted last
and stays eligible for the forward cursor. -/
theorem null_timestamp_rows_retained (evs : List Event) (sid : String) :
    List.Perm (sessionEvents evs sid) (evs.filter (fun e => decide (e.sessionid = sid))) ∧
    computeFunnel
        [⟨"u1", "s1", some 0, "search"⟩, ⟨"u1", "s1", none, "cart"⟩,
         ⟨"u1", "s1", some 1, "product"⟩]
        ["search", "product", "cart"] =
      [{ step := "search", sessions_reached := 1, unique_users_reached := 1 },
       { step := "product", sessions_reached := 1, unique_users_reached := 1 },
       { step := "cart", sessions_reached := 1, unique_users_reached := 1 }] := by
  constructor
  · exact (List.perm_insertionSort EventLE evs).filter _
  · decide

/-! ### Claim C5 -/

/-- C5 (counterexample): `compute_conversion_daily` parses timestamps
with a plain `pd.to_datetime` (no `errors="coerce"`), so a single
unparseable timestamp value makes the whole computation raise instead of
completing — refuting the claim that all three computations degrade
per-row. -/
theorem conversion_raises_on_unparseable_timestamp :
    computeConversionDaily [⟨"u1", "s1", none, "search"⟩] ["search"] =
      Except.error "could not parse timestamp" := by
  rfl

/-- C5 (amended): `compute_funnel` and `compute_sankey_transitions`
coerce unparseable timestamps to the null sentinel and complete, with
null-timestamp rows sorted after the parsed rows of their session group
(first conjunct: the session group's timestamp column is sorted in the
NaT-last order); `compute_conversion_daily` instead raises on any
unparseable timestamp value. -/
theorem timestamp_coercion_not_fatal_except_conversion (evs : List Event) (sid : String) :
    List.Pairwise (fun a b => tsLe a b = true) ((sessionEvents evs sid).map (·.timestamp)) ∧
    computeFunnel
        [⟨"u1", "s1", some 5, "product"⟩, ⟨"u1", "s1", none, "cart"⟩,
         ⟨"u1", "s1", some 1, "search"⟩]
        ["search", "product", "cart"] =
      [{ step := "search", sessions_reached := 1, unique_users_reached := 1 },
       { step := "product", sessions_reached := 1, unique_users_reached := 1 },
       { step := "cart", sessions_reached := 1, unique_users_reached := 1 }] ∧
    computeSankey [⟨"u1", "s1", some 0, "a"⟩, ⟨"u1", "s1", none, "c"⟩]
        [("a", 0), ("c", 2)] true = [{ action := "a", next_action := "c", users := 1 }] ∧
    computeConversionDaily [⟨"u1", "s1", none, "search"⟩, ⟨"u1", "s1", some 0, "search"⟩]
        ["search"] = Except.error "could not parse timestamp" := by
  refine ⟨?_, by decide, by decide, rfl⟩
  have hs : List.Pairwise EventLE (sessionEvents evs sid) :=
    (List.sorted_insertionSort EventLE evs).filter _
  rw [List.pairwise_map]
  refine hs.imp_of_mem ?_
  intro a b ha hb hab
  have ha2 : a.sessionid = sid := of_decide_eq_true (List.mem_filter.mp ha).2
  have hb2 : b.sessionid = sid := of_decide_eq_true (List.mem_filter.mp hb).2
  unfold EventLE eventLe at hab
  rw [ha2, hb2] at hab
  simpa using hab

/-! ### Claim C4 -/

theorem filterMap_filter_of_none {α β : Type} (p : α → Bool) (f : α → Option β)
    (l : List α) (h : ∀ a ∈ l, p a = false → f a = none) :
    (l.filter p).filterMap f = l.filterMap f := by
  induction l with
  | nil => rfl
  | cons x xs ih =>
    have hxs := ih (fun a ha => h a (List.mem_cons_of_mem x ha))
    cases hp : p x with
    | true => simp [List.filter_cons, hp, List.filterMap_cons, hxs]
    | false =>
      have hfx : f x = none := h x (List.mem_cons_self x xs) hp
      simp [List.filter_cons, hp, List.filterMap_cons, hfx, hxs]

theorem dfFirst_filter_ne_user (ces : List CEvent) (u s0 : String) (rest : List String)
    (hu : ∀ e ∈ ces, e.userid = u → e.action ≠ s0) :
    dfFirst (ces.filter (fun e => decide (e.userid ≠ u))) s0 rest = dfFirst ces s0 rest := by
  unfold dfFirst dfF
  congr 1
  rw [List.filter_filter, List.filter_filter, List.filter_filter]
  refine List.filter_congr ?_
  intro e he
  by_cases ha : e.action = s0
  · have : e.userid ≠ u := fun huid => hu e he huid ha
    simp [ha, this]
  · simp [ha]

theorem mem_dfFirst_dfF_action {ces : List CEvent} {s0 : String} {rest : List String}
    {e0 : CEvent} (h : e0 ∈ dfFirst ces s0 rest) :
    e0 ∈ dfF ces (s0 :: rest) ∧ e0.action = s0 := by
  unfold dfFirst at h
  rw [List.mem_insertionSort] at h
  exact ⟨List.mem_of_mem_filter h, of_decide_eq_true (List.mem_filter.mp h).2⟩

theorem firstRowOf_of_no_entry (ces : List CEvent) (u s0 : String) (rest : List String)
    (hu : ∀ e ∈ ces, e.userid = u → e.action ≠ s0) :
    firstRowOf ces s0 rest u = none := by
  unfold firstRowOf
  rw [List.find?_eq_none]
  intro x hx
  obtain ⟨hxf, hxa⟩ := mem_dfFirst_dfF_action hx
  have hxc : x ∈ ces := List.mem_of_mem_filter hxf
  simp only [decide_eq_true_eq]
  exact fun huid => hu x hxc huid hxa

theorem firstRowOf_filter_ne_user (ces : List CEvent) (u s0 : String) (rest : List String)
    (hu : ∀ e ∈ ces, e.userid = u → e.action ≠ s0) :
    firstRowOf (ces.filter (fun e => decide (e.userid ≠ u))) s0 rest =
      firstRowOf ces s0 rest := by
  funext v
  unfold firstRowOf
  rw [dfFirst_filter_ne_user ces u s0 rest hu]

theorem dfJoin0_filter_ne_user (ces : List CEvent) (u s0 : String) (rest : List String)
    (hu : ∀ e ∈ ces, e.userid = u → e.action ≠ s0) :
    dfJoin0 (ces.filter (fun e => decide (e.userid ≠ u))) s0 rest = dfJoin0 ces s0 rest := by
  unfold dfJoin0 dfF
  simp only [firstRowOf_filter_ne_user ces u s0 rest hu]
  have hcomm : (ces.filter (fun e => decide (e.userid ≠ u))).filter
        (fun e => decide (e.action ∈ s0 :: rest)) =
      (ces.filter (fun e => decide (e.action ∈ s0 :: rest))).filter
        (fun e => decide (e.userid ≠ u)) := by
    rw [List.filter_filter, List.filter_filter]
    exact List.filter_congr (fun e _ => Bool.and_comm _ _)
  rw [hcomm]
  refine filterMap_filter_of_none _ _ _ ?_
  intro e _ hq
  have huid : e.userid = u := by
    by_contra hne
    simp [hne] at hq
  rw [huid, firstRowOf_of_no_entry ces u s0 rest hu]

theorem dfJoin_filter_ne_user (ces : List CEvent) (u s0 : String) (rest : List String)
    (hu : ∀ e ∈ ces, e.userid = u → e.action ≠ s0) :
    dfJoin (ces.filter (fun e => decide (e.userid ≠ u))) s0 rest = dfJoin ces s0 rest := by
  unfold dfJoin
  rw [dfJoin0_filter_ne_user ces u s0 rest hu]

theorem stepCount_filter_ne_user (ces : List CEvent) (u s0 : String) (rest : List String)
    (hu : ∀ e ∈ ces, e.userid = u → e.action ≠ s0) :
    stepCount (ces.filter (fun e => decide (e.userid ≠ u))) s0 rest = stepCount ces s0 rest := by
  funext d s
  unfold stepCount
  rw [dfJoin_filter_ne_user ces u s0 rest hu]

theorem conversionRows_filter_ne_user (ces : List CEvent) (u s0 : String) (rest : List String)
    (hu : ∀ e ∈ ces, e.userid = u → e.action ≠ s0) :
    conversionRows (ces.filter (fun e => decide (e.userid ≠ u))) s0 rest =
      conversionRows ces s0 rest := by
  unfold conversionRows cohortDates mkDailyRow
  rw [dfJoin_filter_ne_user ces u s0 rest hu, stepCount_filter_ne_user ces u s0 rest hu]

/-- C4: a user who never performs the Step List's first step contributes
to no output row of `compute_conversion_daily` — deleting all their
events leaves the output unchanged (first conjunct) — and for a cohorted
user only events at or after the user's `first_ts` are counted: a stray
`product` event on day 0 ahead of the user's first `search` on day 1 is
excluded from every count, so the day-1 cohort row counts
`search = 1, product = 0` (second conjunct). -/
theorem cohort_anchoring_excludes_non_entrants (ces : List CEvent) (u s0 : String)
    (rest : List String) (hu : ∀ e ∈ ces, e.userid = u → e.action ≠ s0) :
    conversionRows (ces.filter (fun e => decide (e.userid ≠ u))) s0 rest =
      conversionRows ces s0 rest ∧
    conversionRows [⟨"u1", 0, "product"⟩, ⟨"u1", 86400, "search"⟩] "search" ["product"] =
      [{ cohort_date := 1, stepCounts := [1, 0], crs := [PFloat.val 0],
         cr_full := PFloat.val 0 }] := by
  refine ⟨conversionRows_filter_ne_user ces u s0 rest hu, ?_⟩
  simp +decide [conversionRows, cohortDates, mkDailyRow, dfJoin, dfJoin0, dfF, dfFirst,
    firstRowOf, stepCount, ratioDiv, dayOf, secondsPerDay]

/-- Witness for C4 at a concrete input: `u1` performs only `product`,
never the first step `search`, and removing `u1`'s rows leaves the
output unchanged. -/
theorem cohort_anchoring_excludes_non_entrants_witness :
    conversionRows ([⟨"u2", 0, "search"⟩, ⟨"u1", 5, "product"⟩].filter
        (fun e => decide (e.userid ≠ "u1"))) "search" ["product"] =
      conversionRows [⟨"u2", 0, "search"⟩, ⟨"u1", 5, "product"⟩] "search" ["product"] ∧
    conversionRows [⟨"u1", 0, "product"⟩, ⟨"u1", 86400, "search"⟩] "search" ["product"] =
      [{ cohort_date := 1, stepCounts := [1, 0], crs := [PFloat.val 0],
         cr_full := PFloat.val 0 }] :=
  cohort_anchoring_excludes_non_entrants [⟨"u2", 0, "search"⟩, ⟨"u1", 5, "product"⟩]
    "u1" "search" ["product"] (by decide)

/-! ### Claims C9 and C6 -/

theorem stepCount_first_pos (ces : List CEvent) (s0 : String) (rest : List String)
    (d : Nat) (hd : d ∈ cohortDates ces s0 rest) :
    0 < stepCount ces s0 rest d s0 := by
  unfold cohortDates at hd
  rw [List.mem_insertionSort, List.mem_dedup, List.mem_map] at hd
  obtain ⟨x, hx, hxd⟩ := hd
  have hx0 : x ∈ dfJoin0 ces s0 rest := List.mem_of_mem_filter hx
  unfold dfJoin0 at hx0
  rw [List.mem_filterMap] at hx0
  obtain ⟨e, he, hfe⟩ := hx0
  cases hrow : firstRowOf ces s0 rest e.userid with
  | none => rw [hrow] at hfe; exact absurd hfe (by simp)
  | some e0 =>
    rw [hrow] at hfe
    have hx2 : x = ⟨e, e0.ts, dayOf e0.ts⟩ := (Option.some.inj hfe).symm
    have hrow' : (dfFirst ces s0 rest).find? (fun x => decide (x.userid = e.userid)) = some e0 :=
      hrow
    have he0 : e0 ∈ dfFirst ces s0 rest := List.mem_of_find?_eq_some hrow'
    have he0u : e0.userid = e.userid := by
      have h := List.find?_some hrow'
      simpa using h
    obtain ⟨he0f, he0a⟩ := mem_dfFirst_dfF_action he0
    have hy0 : (⟨e0, e0.ts, dayOf e0.ts⟩ : JoinedRow) ∈ dfJoin0 ces s0 rest := by
      unfold dfJoin0
      rw [List.mem_filterMap]
      exact ⟨e0, he0f, by rw [he0u, hrow]⟩
    have hy : (⟨e0, e0.ts, dayOf e0.ts⟩ : JoinedRow) ∈ dfJoin ces s0 rest := by
      unfold dfJoin
      rw [List.mem_filter]
      exact ⟨hy0, by simp⟩
    have hmem : e0.userid ∈ (((dfJoin ces s0 rest).filter
        (fun z => decide (z.cohort_date = d ∧ z.ev.action = s0))).map
          (fun z => z.ev.userid)).dedup := by
      rw [List.mem_dedup, List.mem_map]
      refine ⟨⟨e0, e0.ts, dayOf e0.ts⟩, ?_, rfl⟩
      rw [List.mem_filter]
      refine ⟨hy, ?_⟩
      have : dayOf e0.ts = d := by rw [hx2] at hxd; exact hxd
      simp [this, he0a]
    unfold stepCount
    exact List.length_pos.mpr (List.ne_nil_of_mem hmem)

/-- C9: every data row `compute_conversion_daily` actually produces has a
first-step count of at least 1 (each cohort date's group retains, for
each of its users, that user's own first-step event at `first_ts`), so
`cr_full`'s denominator is never zero on produced rows and `cr_full` is a
finite rational there. -/
theorem conversion_first_step_count_positive (ces : List CEvent) (s0 : String)
    (rest : List String) (r : DailyRow) (hr : r ∈ conversionRows ces s0 rest) :
    1 ≤ r.stepCounts.headD 0 ∧ ∃ q : ℚ, r.cr_full = PFloat.val q := by
  unfold conversionRows at hr
  rw [List.mem_map] at hr
  obtain ⟨d, hd, hrd⟩ := hr
  have hpos := stepCount_first_pos ces s0 rest d hd
  subst hrd
  constructor
  · simpa [mkDailyRow] using hpos
  · simp only [mkDailyRow]
    unfold ratioDiv
    rw [if_neg (by omega : ¬ stepCount ces s0 rest d s0 = 0)]
    exact ⟨_, rfl⟩

/-- Witness for C9: a one-event input; the single produced row has
first-step count 1. -/
theorem conversion_first_step_count_positive_witness :
    1 ≤ (mkDailyRow [⟨"u1", 0, "s"⟩] "s" [] 0).stepCounts.headD 0 ∧
    ∃ q : ℚ, (mkDailyRow [⟨"u1", 0, "s"⟩] "s" [] 0).cr_full = PFloat.val q :=
  conversion_first_step_count_positive [⟨"u1", 0, "s"⟩] "s" []
    (mkDailyRow [⟨"u1", 0, "s"⟩] "s" [] 0) (List.mem_map_of_mem _ (by decide))

/-- C6 (counterexample): in the produced day-0 cohort row for steps
`[s1, s2, s3]` with events `s1` then `s3`, the `cr_s2_to_s3` column has a
zero denominator (the `s2` count is 0) and holds `inf`, pandas' result of
`1 / 0` — not a NaN-equivalent sentinel, refuting the claim that every
zero-denominator ratio column holds one. -/
theorem ratio_zero_denominator_not_nan :
    conversionRows [⟨"u1", 0, "s1"⟩, ⟨"u1", 10, "s3"⟩] "s1" ["s2", "s3"] =
      [{ cohort_date := 0, stepCounts := [1, 0, 1], crs := [PFloat.val 0, PFloat.inf],
         cr_full := PFloat.val 1 }] ∧
    stepCount [⟨"u1", 0, "s1"⟩, ⟨"u1", 10, "s3"⟩] "s1" ["s2", "s3"] 0 "s2" = 0 ∧
    PFloat.inf ≠ PFloat.nan := by
  refine ⟨?_, by decide, by decide⟩
  simp +decide [conversionRows, cohortDates, mkDailyRow, dfJoin, dfJoin0, dfF, dfFirst,
    firstRowOf, stepCount, ratioDiv, dayOf, secondsPerDay]

/-- C6 (amended): in every produced row, an adjacent ratio column whose
denominator count is zero holds a non-finite sentinel — `nan` when the
numerator count is also zero, `inf` when it is positive — never an
exception and never a finite value such as zero; and a produced row's
first-step count is never zero, so the claim's zero-denominator case for
`cr_full` (a cohort date with no first-step users) never occurs. -/
theorem ratio_zero_denominator_sentinel (ces : List CEvent) (s0 : String)
    (rest : List String) (r : DailyRow) (hr : r ∈ conversionRows ces s0 rest)
    (ab : String × String) (hab : ab ∈ List.zip (s0 :: rest) rest)
    (hden : stepCount ces s0 rest r.cohort_date ab.1 = 0) :
    ratioDiv (stepCount ces s0 rest r.cohort_date ab.2)
        (stepCount ces s0 rest r.cohort_date ab.1) ∈ r.crs ∧
    (stepCount ces s0 rest r.cohort_date ab.2 = 0 →
      ratioDiv (stepCount ces s0 rest r.cohort_date ab.2)
        (stepCount ces s0 rest r.cohort_date ab.1) = PFloat.nan) ∧
    (stepCount ces s0 rest r.cohort_date ab.2 ≠ 0 →
      ratioDiv (stepCount ces s0 rest r.cohort_date ab.2)
        (stepCount ces s0 rest r.cohort_date ab.1) = PFloat.inf) ∧
    (∀ q : ℚ, ratioDiv (stepCount ces s0 rest r.cohort_date ab.2)
        (stepCount ces s0 rest r.cohort_date ab.1) ≠ PFloat.val q) ∧
    0 < stepCount ces s0 rest r.cohort_date s0 := by
  unfold conversionRows at hr
  rw [List.mem_map] at hr
  obtain ⟨d, hd, hrd⟩ := hr
  subst hrd
  simp only [mkDailyRow] at hden ⊢
  refine ⟨List.mem_map_of_mem _ hab, ?_, ?_, ?_, stepCount_first_pos ces s0 rest d hd⟩
  · intro h0
    simp [ratioDiv, hden, h0]
  · intro h0
    simp [ratioDiv, hden, h0]
  · intro q
    unfold ratioDiv
    rw [if_pos hden]
    split <;> simp

/-- Witness for C6 (amended) at the counterexample input: the day-0 row's
`cr_s2_to_s3` column (denominator `s2` count 0, numerator `s3` count 1)
is `inf`, and the row's first-step count is positive. -/
theorem ratio_zero_denominator_sentinel_witness :
    ratioDiv
        (stepCount [⟨"u1", 0, "s1"⟩, ⟨"u1", 10, "s3"⟩] "s1" ["s2", "s3"]
          (mkDailyRow [⟨"u1", 0, "s1"⟩, ⟨"u1", 10, "s3"⟩] "s1" ["s2", "s3"] 0).cohort_date "s3")
        (stepCount [⟨"u1", 0, "s1"⟩, ⟨"u1", 10, "s3"⟩] "s1" ["s2", "s3"]
          (mkDailyRow [⟨"u1", 0, "s1"⟩, ⟨"u1", 10, "s3"⟩] "s1" ["s2", "s3"] 0).cohort_date "s2") =
      PFloat.inf ∧
    0 < stepCount [⟨"u1", 0, "s1"⟩, ⟨"u1", 10, "s3"⟩] "s1" ["s2", "s3"]
        (mkDailyRow [⟨"u1", 0, "s1"⟩, ⟨"u1", 10, "s3"⟩] "s1" ["s2", "s3"] 0).cohort_date "s1" := by
  have h := ratio_zero_denominator_sentinel [⟨"u1", 0, "s1"⟩, ⟨"u1", 10, "s3"⟩] "s1"
    ["s2", "s3"] (mkDailyRow [⟨"u1", 0, "s1"⟩, ⟨"u1", 10, "s3"⟩] "s1" ["s2", "s3"] 0)
    (List.mem_map_of_mem _ (by decide)) ("s2", "s3") (by decide) (by decide)
  exact ⟨h.2.2.1 (by decide), h.2.2.2.2⟩

/-! ### Claim C8 -/

theorem reachedSteps_subset (actions steps : List String) :
    ∀ st ∈ reachedSteps actions steps, st ∈ steps := by
  obtain ⟨n, hn⟩ := funnelGo_take actions steps 0
  unfold reachedSteps
  rw [hn]
  exact fun st h => List.take_subset n steps h

theorem reachedSteps_nodup (actions steps : List String) (hnd : steps.Nodup) :
    (reachedSteps actions steps).Nodup := by
  obtain ⟨n, hn⟩ := funnelGo_take actions steps 0
  unfold reachedSteps
  rw [hn]
  exact hnd.sublist (List.take_sublist n steps)

theorem groupKeys_nodup (evs : List Event) : (groupKeys evs).Nodup :=
  (List.perm_insertionSort StrLE _).nodup_iff.mpr (List.nodup_dedup _)

theorem reachingSessions_nodup (evs : List Event) (steps : List String) (st : String) :
    (reachingSessions evs steps st).Nodup :=
  (groupKeys_nodup evs).filter _

theorem map_row_filter_of_not_mem (sid user st : String) (l : List String) (h : st ∉ l) :
    (l.map (fun s => ({ sessionid := sid, userid := user, step := s } : ReachedRow))).filter
      (fun r => decide (r.step = st)) = [] := by
  induction l with
  | nil => rfl
  | cons x xs ih =>
    have hx : x ≠ st := fun he => h (he ▸ List.mem_cons_self x xs)
    rw [List.map_cons, List.filter_cons]
    simp only [hx, decide_eq_true_eq, if_neg]
    exact ih (fun hm => h (List.mem_cons_of_mem x hm))

theorem map_row_filter_eq (sid user st : String) (l : List String) (hnd : l.Nodup) :
    (l.map (fun s => ({ sessionid := sid, userid := user, step := s } : ReachedRow))).filter
        (fun r => decide (r.step = st)) =
      if st ∈ l then [{ sessionid := sid, userid := user, step := st }] else [] := by
  induction l with
  | nil => rfl
  | cons x xs ih =>
    rw [List.nodup_cons] at hnd
    by_cases hx : x = st
    · subst hx
      simp [List.filter_cons, map_row_filter_of_not_mem sid user x xs hnd.1]
    · have hx' : ¬st = x := fun he => hx he.symm
      simp [List.filter_cons, hx, ih hnd.2, List.mem_cons, hx']

theorem reachedRows_filter (evs : List Event) (steps : List String) (hnd : steps.Nodup)
    (st : String) :
    (reachedRows evs steps).filter (fun r => decide (r.step = st)) =
      (reachingSessions evs steps st).map
        (fun sid => { sessionid := sid, userid := sessionUser evs sid, step := st }) := by
  unfold reachedRows reachingSessions
  induction groupKeys evs with
  | nil => rfl
  | cons sid K ih =>
    rw [List.flatMap_cons, List.filter_append, ih, List.filter_cons,
      map_row_filter_eq sid (sessionUser evs sid) st (reachedSet evs steps sid)
        (reachedSteps_nodup _ steps hnd)]
    by_cases hmem : st ∈ reachedSet evs steps sid
    · simp [hmem]
    · simp [hmem]

theorem funnelAggRow_eq_specRow (evs : List Event) (steps : List String) (hnd : steps.Nodup)
    (st : String) : funnelAggRow evs steps st = specRow evs steps st := by
  unfold funnelAggRow specRow
  rw [reachedRows_filter evs steps hnd st]
  dsimp only
  rw [List.map_map, List.map_map]
  have h1 : ((fun r : ReachedRow => r.sessionid) ∘
      (fun sid => ({ sessionid := sid, userid := sessionUser evs sid, step := st } :
        ReachedRow))) = id := rfl
  have h2 : ((fun r : ReachedRow => r.userid) ∘
      (fun sid => ({ sessionid := sid, userid := sessionUser evs sid, step := st } :
        ReachedRow))) = sessionUser evs := rfl
  rw [h1, h2, List.map_id, List.dedup_eq_self.mpr (reachingSessions_nodup evs steps st)]

theorem mem_rows_step_iff (evs : List Event) (steps : List String) (st : String) :
    st ∈ (reachedRows evs steps).map (·.step) ↔ reachingSessions evs steps st ≠ [] := by
  unfold reachedRows reachingSessions
  constructor
  · intro h
    rw [List.mem_map] at h
    obtain ⟨r, hr, hrst⟩ := h
    rw [List.mem_flatMap] at hr
    obtain ⟨sid, hsid, hrmem⟩ := hr
    rw [List.mem_map] at hrmem
    obtain ⟨s, hs, hmk⟩ := hrmem
    have hsst : s = st := by rw [← hrst, ← hmk]
    refine List.ne_nil_of_mem (List.mem_filter.mpr ⟨hsid, ?_⟩)
    simp [← hsst, hs]
  · intro hne
    obtain ⟨sid, hsid⟩ := List.exists_mem_of_ne_nil _ hne
    obtain ⟨hk, hmem⟩ := List.mem_filter.mp hsid
    rw [List.mem_map]
    refine ⟨{ sessionid := sid, userid := sessionUser evs sid, step := st }, ?_, rfl⟩
    rw [List.mem_flatMap]
    exact ⟨sid, hk, List.mem_map_of_mem _ (of_decide_eq_true hmem)⟩

theorem rows_step_mem_steps (evs : List Event) (steps : List String) (st : String)
    (h : st ∈ (reachedRows evs steps).map (·.step)) : st ∈ steps := by
  unfold reachedRows at h
  rw [List.mem_map] at h
  obtain ⟨r, hr, hrst⟩ := h
  rw [List.mem_flatMap] at hr
  obtain ⟨sid, _, hrmem⟩ := hr
  rw [List.mem_map] at hrmem
  obtain ⟨s, hs, hmk⟩ := hrmem
  have hsst : s = st := by rw [← hrst, ← hmk]
  exact hsst ▸ reachedSteps_subset _ steps s hs

theorem computeFunnelSpec_nil_of_rows_nil (evs : List Event) (steps : List String)
    (h : reachedRows evs steps = []) : computeFunnelSpec evs steps = [] := by
  unfold computeFunnelSpec
  rw [List.map_eq_nil_iff, List.filter_eq_nil_iff]
  intro st _
  simp only [decide_not, Bool.not_eq_true', decide_eq_false_iff_not, not_not]
  by_contra hne
  have := (mem_rows_step_iff evs steps st).mpr hne
  rw [h] at this
  simp at this

theorem pairwise_lt_stepNumber (steps : List String) (hnd : steps.Nodup) :
    List.Pairwise (fun a b => stepNumber steps a < stepNumber steps b) steps := by
  rw [List.pairwise_iff_getElem]
  intro i j hi hj hij
  have ha : steps[i] ∈ steps := List.getElem_mem hi
  have hb : steps[j] ∈ steps := List.getElem_mem hj
  unfold stepNumber
  rw [if_pos ha, if_pos hb, List.indexOf_getElem hnd i hi, List.indexOf_getElem hnd j hj]
  exact_mod_cast hij

theorem eq_of_perm_of_map_eq {α β : Type} (f : α → β) :
    ∀ (l1 l2 : List α), List.Perm l1 l2 → l1.map f = l2.map f →
      (∀ a ∈ l1, ∀ b ∈ l2, f a = f b → a = b) → l1 = l2 := by
  intro l1
  induction l1 with
  | nil =>
    intro l2 hp _ _
    exact hp.nil_eq
  | cons x xs ih =>
    intro l2 hp hm hinj
    cases l2 with
    | nil => exact absurd hp.symm.nil_eq (by simp)
    | cons y ys =>
      rw [List.map_cons, List.map_cons] at hm
      injection hm with h1 h2
      have hxy : x = y :=
        hinj x (List.mem_cons_self x xs) y (List.mem_cons_self y ys) h1
      subst hxy
      rw [ih ys hp.cons_inv h2
        (fun a ha b hb => hinj a (List.mem_cons_of_mem _ ha) b (List.mem_cons_of_mem _ hb))]

/-- C8: for a Step List of distinct step names, `compute_funnel`'s output
equals, row for row, the table claim C8 describes: one row per step that
occurs in at least one session's reached set, in Step List order (not
discovery or alphabetical order), with `sessions_reached` the number of
distinct sessions whose reached set contains the step and
`unique_users_reached` the number of distinct users among those sessions. -/
theorem funnel_output_rows (evs : List Event) (steps : List String) (hnd : steps.Nodup) :
    computeFunnel evs steps = computeFunnelSpec evs steps := by
  by_cases hrows : reachedRows evs steps = []
  · unfold computeFunnel
    rw [if_pos hrows, computeFunnelSpec_nil_of_rows_nil evs steps hrows]
  · unfold computeFunnel
    rw [if_neg hrows]
    have hfa : funnelAggRow evs steps = specRow evs steps :=
      funext (funnelAggRow_eq_specRow evs steps hnd)
    rw [hfa]
    have hpermkeys : List.Perm
        (List.insertionSort StrLE ((reachedRows evs steps).map (·.step)).dedup)
        (steps.filter (fun st => decide (reachingSessions evs steps st ≠ []))) := by
      refine (List.perm_insertionSort _ _).trans ?_
      refine List.perm_of_nodup_nodup_toFinset_eq (List.nodup_dedup _) (hnd.filter _) ?_
      ext st
      simp only [List.mem_toFinset, List.mem_dedup, List.mem_filter, decide_eq_true_eq]
      constructor
      · intro h
        exact ⟨rows_step_mem_steps evs steps st h, (mem_rows_step_iff evs steps st).mp h⟩
      · rintro ⟨_, hP⟩
        exact (mem_rows_step_iff evs steps st).mpr hP
    have hperm : List.Perm
        (List.insertionSort (funnelRowLE steps)
          ((List.insertionSort StrLE ((reachedRows evs steps).map (·.step)).dedup).map
            (specRow evs steps)))
        (computeFunnelSpec evs steps) :=
      (List.perm_insertionSort _ _).trans (hpermkeys.map _)
    have hsortedL : List.Sorted (funnelRowLE steps)
        (List.insertionSort (funnelRowLE steps)
          ((List.insertionSort StrLE ((reachedRows evs steps).map (·.step)).dedup).map
            (specRow evs steps))) := List.sorted_insertionSort _ _
    have hsortedT : List.Sorted (funnelRowLE steps) (computeFunnelSpec evs steps) := by
      unfold computeFunnelSpec
      show List.Pairwise (funnelRowLE steps) _
      rw [List.pairwise_map]
      refine ((pairwise_lt_stepNumber steps hnd).filter _).imp ?_
      intro a b hab
      exact le_of_lt hab
    have hkeysEq :
        (List.insertionSort (funnelRowLE steps)
          ((List.insertionSort StrLE ((reachedRows evs steps).map (·.step)).dedup).map
            (specRow evs steps))).map (fun r => stepNumber steps r.step) =
        (computeFunnelSpec evs steps).map (fun r => stepNumber steps r.step) := by
      have h1 : List.Sorted (fun a b : Int => a ≤ b)
          ((List.insertionSort (funnelRowLE steps)
            ((List.insertionSort StrLE ((reachedRows evs steps).map (·.step)).dedup).map
              (specRow evs steps))).map (fun r => stepNumber steps r.step)) := by
        show List.Pairwise (fun a b : Int => a ≤ b) _
        rw [List.pairwise_map]
        exact hsortedL
      have h2 : List.Sorted (fun a b : Int => a ≤ b)
          ((computeFunnelSpec evs steps).map (fun r => stepNumber steps r.step)) := by
        show List.Pairwise (fun a b : Int => a ≤ b) _
        rw [List.pairwise_map]
        exact hsortedT
      exact List.eq_of_perm_of_sorted (hperm.map _) h1 h2
    refine eq_of_perm_of_map_eq (fun r => stepNumber steps r.step) _ _ hperm hkeysEq ?_
    intro a ha b hb hfab
    have haT : a ∈ computeFunnelSpec evs steps := hperm.mem_iff.mp ha
    unfold computeFunnelSpec at haT hb
    rw [List.mem_map] at haT hb
    obtain ⟨sa, hsa, hsa2⟩ := haT
    obtain ⟨sb, hsb, hsb2⟩ := hb
    have hsa3 : sa ∈ steps := List.mem_of_mem_filter hsa
    have hsb3 : sb ∈ steps := List.mem_of_mem_filter hsb
    subst hsa2
    subst hsb2
    have hkey : stepNumber steps sa = stepNumber steps sb := hfab
    unfold stepNumber at hkey
    rw [if_pos hsa3, if_pos hsb3] at hkey
    have hidx : List.indexOf sa steps = List.indexOf sb steps := by exact_mod_cast hkey
    rw [(List.indexOf_inj hsa3 hsb3).mp hidx]

/-- Witness for C8 at a concrete input: three sessions, a step (`cart`,
`checkout`) reached by no session is absent, and the rows come out in
Step List order (`search` before `product`) although alphabetical order
would reverse them. -/
theorem funnel_output_rows_witness :
    computeFunnel
        [⟨"u1", "s1", some 0, "search"⟩, ⟨"u1", "s1", some 1, "product"⟩,
         ⟨"u2", "s2", some 0, "search"⟩, ⟨"u3", "s3", some 0, "product"⟩]
        ["search", "product", "cart", "checkout"] =
      computeFunnelSpec
        [⟨"u1", "s1", some 0, "search"⟩, ⟨"u1", "s1", some 1, "product"⟩,
         ⟨"u2", "s2", some 0, "search"⟩, ⟨"u3", "s3", some 0, "product"⟩]
        ["search", "product", "cart", "checkout"] ∧
    computeFunnel
        [⟨"u1", "s1", some 0, "search"⟩, ⟨"u1", "s1", some 1, "product"⟩,
         ⟨"u2", "s2", some 0, "search"⟩, ⟨"u3", "s3", some 0, "product"⟩]
        ["search", "product", "cart", "checkout"] =
      [{ step := "search", sessions_reached := 2, unique_users_reached := 2 },
       { step := "product", sessions_reached := 1, unique_users_reached := 1 }] :=
  ⟨funnel_output_rows _ _ (by decide), by decide⟩
